import Mathlib

/-!
Verification development for the `generative_agents` simulation server
(Go).  The Go sources are shallowly embedded: pure functions become Lean
functions, Go maps become association lists (their iteration order is
unspecified in Go, so theorems only rely on key/value content), Go
`float64` scoring becomes exact rational arithmetic (the properties at
issue are control-flow properties, and every concrete evaluation uses
values on which float and rational arithmetic agree), and Go panics
become `Option.none`.
-/

namespace SimCore

/-- Go strings are modelled as lists of characters. -/
abbrev Str := List Char

/-- Shortcut instance: keeps `simp` from a long class search on the
nested map types below. -/
instance (priority := 2000) nonemptyList {A : Type} : Nonempty (List A) :=
  ⟨[]⟩

/-! ### Association-list helpers, modelling Go maps -/

/-- Lookup in a Go map (modelled as an association list). -/
def alookup {K V : Type} [DecidableEq K] : List (K × V) → K → Option V
  | [], _ => none
  | (k2, v) :: rest, k => if k2 = k then some v else alookup rest k

/-- `m[k]` with Go's zero-value default. -/
def alookupD {K V : Type} [DecidableEq K] (m : List (K × V)) (k : K) (d : V) : V :=
  (alookup m k).getD d

/-- Key-membership test for a Go map. -/
def hasKey {K V : Type} [DecidableEq K] (m : List (K × V)) (k : K) : Bool :=
  (alookup m k).isSome

/-- `m[k] = v`: replace the binding if the key is present, otherwise add it. -/
def updKey {K V : Type} [DecidableEq K] : List (K × V) → K → V → List (K × V)
  | [], k, v => [(k, v)]
  | (k2, v2) :: rest, k, v =>
      if k2 = k then (k2, v) :: rest else (k2, v2) :: updKey rest k v

/-- The key set of a Go map (`keys` in `src/unnamed/part_000`). -/
def keysOf {K V : Type} (m : List (K × V)) : List K := m.map Prod.fst

/-! ### `memory.Path` (src/simulation_server/memory/path.go) -/

/-- `memory.Path`: four segments, the empty string meaning "unset". -/
structure Path where
  world : Str
  sector : Str
  arena : Str
  object : Str
deriving DecidableEq, Repr

/-- `memory.ParsePath`.  Go panics when the colon-split has more than 4
parts; the panic is modelled as `none`.  `strings.Split` always returns at
least one part, so `parts[0]` is total; the remaining parts default to the
empty string exactly as in the Go code. -/
def parsePath (loc : Str) : Option Path :=
  let parts := loc.splitOn ':'
  if parts.length > 4 then none
  else some
    { world := parts.headD []
      sector := (parts.drop 1).headD []
      arena := (parts.drop 2).headD []
      object := (parts.drop 3).headD [] }

/-- `Path.ToString`: append `":" + segment` while segments stay non-empty,
returning early at the first empty one. -/
def pathToString (p : Path) : Str :=
  let str := p.world
  if p.sector = [] then str else
  let str := str ++ ':' :: p.sector
  if p.arena = [] then str else
  let str := str ++ ':' :: p.arena
  if p.object = [] then str else
  str ++ ':' :: p.object

/-- The longest non-empty leading run of segments, top level first. -/
def Path.filledSegs (p : Path) : List Str :=
  if p.world = [] then [] else
  if p.sector = [] then [p.world] else
  if p.arena = [] then [p.world, p.sector] else
  if p.object = [] then [p.world, p.sector, p.arena] else
  [p.world, p.sector, p.arena, p.object]

/-- A `Path` whose segments form a non-empty leading run of the four
levels: the world is set, and each set segment has all higher ones set. -/
def Path.wfRun (p : Path) : Prop :=
  p.world ≠ [] ∧ (p.arena ≠ [] → p.sector ≠ []) ∧ (p.object ≠ [] → p.arena ≠ [])

/-- No segment of `p` contains the separator character. -/
def Path.colonFree (p : Path) : Prop :=
  ':' ∉ p.world ∧ ':' ∉ p.sector ∧ ':' ∉ p.arena ∧ ':' ∉ p.object

instance : DecidablePred Path.wfRun := fun p => by unfold Path.wfRun; infer_instance

instance : DecidablePred Path.colonFree := fun p => by unfold Path.colonFree; infer_instance

/-- A path whose single segment contains a colon. -/
def colonPath : Path := { world := ['a', ':', 'b'], sector := [], arena := [], object := [] }

/-- **C9, counterexample.**  The round-trip `ParsePath (p.ToString()) == p`
fails for the valid one-segment path whose world segment is the literal
string `"a:b"`: rendering gives `"a:b"` and re-parsing yields the
two-segment path `world "a", sector "b"`. -/
theorem parsePath_toString_not_involutive :
    parsePath (pathToString colonPath) ≠ some colonPath := by decide

theorem intercalate_one (sep a : Str) : sep.intercalate [a] = a := by
  simp [List.intercalate]

theorem intercalate_two (sep a b : Str) :
    sep.intercalate [a, b] = a ++ sep ++ b := by
  simp [List.intercalate, List.intersperse]

theorem intercalate_three (sep a b c : Str) :
    sep.intercalate [a, b, c] = a ++ sep ++ b ++ sep ++ c := by
  simp [List.intercalate, List.intersperse]

theorem intercalate_four (sep a b c d : Str) :
    sep.intercalate [a, b, c, d] = a ++ sep ++ b ++ sep ++ c ++ sep ++ d := by
  simp [List.intercalate, List.intersperse]

/-- Splitting the colon-joined form of colon-free segments recovers the
segments. -/
theorem splitOn_colon_segs (ls : List Str) (hx : ∀ l ∈ ls, ':' ∉ l)
    (hne : ls ≠ []) : ([':'].intercalate ls).splitOn ':' = ls :=
  List.splitOn_intercalate ls ':' hx hne

/-- **C9, amended.**  For every `Path` whose segments form a non-empty
leading run of the four levels and contain no `':'`, parsing the rendered
string yields the path again, and `ToString` is exactly the `':'`-joined
non-empty leading run.  (The colon-freeness hypothesis is forced by
`parsePath_toString_not_involutive`.) -/
theorem parsePath_pathToString (p : Path) (hr : p.wfRun) (hc : p.colonFree) :
    parsePath (pathToString p) = some p ∧
    pathToString p = [':'].intercalate p.filledSegs := by
  obtain ⟨w, s, a, o⟩ := p
  obtain ⟨hw, har, hob⟩ := hr
  have cw : ':' ∉ w := hc.1
  have cs : ':' ∉ s := hc.2.1
  have ca : ':' ∉ a := hc.2.2.1
  have co : ':' ∉ o := hc.2.2.2
  by_cases hs : s = []
  · have ha : a = [] := by by_contra h; exact har h hs
    have ho : o = [] := by by_contra h; exact hob h ha
    subst hs; subst ha; subst ho
    have hts : pathToString ⟨w, [], [], []⟩ = [':'].intercalate [w] := by
      simp [pathToString, intercalate_one]
    have hfs : Path.filledSegs ⟨w, [], [], []⟩ = [w] := by
      simp [Path.filledSegs, hw]
    have hsp := splitOn_colon_segs [w]
      (by intro l hl; simp at hl; subst hl; exact cw) (by simp)
    refine ⟨?_, by rw [hts, hfs]⟩
    rw [hts]; simp only [parsePath, hsp]; simp
  · by_cases ha : a = []
    · have ho : o = [] := by by_contra h; exact hob h ha
      subst ha; subst ho
      have hts : pathToString ⟨w, s, [], []⟩ = [':'].intercalate [w, s] := by
        simp [pathToString, hs, intercalate_two]
      have hfs : Path.filledSegs ⟨w, s, [], []⟩ = [w, s] := by
        simp [Path.filledSegs, hw, hs]
      have hsp := splitOn_colon_segs [w, s]
        (by intro l hl; simp at hl; rcases hl with rfl | rfl <;> assumption)
        (by simp)
      refine ⟨?_, by rw [hts, hfs]⟩
      rw [hts]; simp only [parsePath, hsp]; simp
    · by_cases ho : o = []
      · subst ho
        have hts : pathToString ⟨w, s, a, []⟩ = [':'].intercalate [w, s, a] := by
          simp [pathToString, hs, ha, intercalate_three]
        have hfs : Path.filledSegs ⟨w, s, a, []⟩ = [w, s, a] := by
          simp [Path.filledSegs, hw, hs, ha]
        have hsp := splitOn_colon_segs [w, s, a]
          (by intro l hl; simp at hl; rcases hl with rfl | rfl | rfl <;> assumption)
          (by simp)
        refine ⟨?_, by rw [hts, hfs]⟩
        rw [hts]; simp only [parsePath, hsp]; simp
      · have hts : pathToString ⟨w, s, a, o⟩ = [':'].intercalate [w, s, a, o] := by
          simp [pathToString, hs, ha, ho, intercalate_four]
        have hfs : Path.filledSegs ⟨w, s, a, o⟩ = [w, s, a, o] := by
          simp [Path.filledSegs, hw, hs, ha, ho]
        have hsp := splitOn_colon_segs [w, s, a, o]
          (by intro l hl; simp at hl
              rcases hl with rfl | rfl | rfl | rfl <;> assumption)
          (by simp)
        refine ⟨?_, by rw [hts, hfs]⟩
        rw [hts]; simp only [parsePath, hsp]; simp

/-- A well-formed colon-free two-segment path for the round-trip witness. -/
def okPath : Path := { world := ['t'], sector := ['k'], arena := [], object := [] }

/-- Witness for `parsePath_pathToString` at a concrete path. -/
theorem parsePath_pathToString_witness :
    okPath.wfRun ∧ okPath.colonFree ∧
      parsePath (pathToString okPath) = some okPath :=
  ⟨by decide, by decide, (parsePath_pathToString okPath (by decide) (by decide)).1⟩

/-! ### Association-list lemmas -/

theorem alookup_updKey {K V : Type} [DecidableEq K] (m : List (K × V))
    (k : K) (v : V) (k2 : K) :
    alookup (updKey m k v) k2 = if k = k2 then some v else alookup m k2 := by
  induction m with
  | nil =>
      by_cases h : k = k2 <;> simp [updKey, alookup, h]
  | cons e rest ih =>
      obtain ⟨ek, ev⟩ := e
      by_cases h1 : ek = k
      · subst h1
        by_cases h2 : ek = k2 <;> simp [updKey, alookup, h2]
      · by_cases h2 : ek = k2
        · subst h2
          have : ¬ k = ek := fun h => h1 h.symm
          simp [updKey, alookup, h1, this]
        · simp [updKey, alookup, h1, h2, ih]

theorem updKey_self {K V : Type} [DecidableEq K] (m : List (K × V))
    (k : K) (v : V) (h : alookup m k = some v) : updKey m k v = m := by
  induction m with
  | nil => simp [alookup] at h
  | cons e rest ih =>
      obtain ⟨ek, ev⟩ := e
      by_cases h1 : ek = k
      · subst h1
        simp [alookup] at h
        simp [updKey, h]
      · simp [alookup, h1] at h
        simp [updKey, h1, ih h]

theorem alookup_mem {K V : Type} [DecidableEq K] (m : List (K × V))
    (k : K) (v : V) (h : alookup m k = some v) : (k, v) ∈ m := by
  induction m with
  | nil => simp [alookup] at h
  | cons e rest ih =>
      obtain ⟨ek, ev⟩ := e
      by_cases h1 : ek = k
      · subst h1
        simp [alookup] at h
        simp [h]
      · simp [alookup, h1] at h
        simp [ih h]

theorem mem_keysOf {K V : Type} [DecidableEq K] (m : List (K × V)) (x : K) :
    x ∈ keysOf m ↔ (alookup m x).isSome := by
  induction m with
  | nil => simp [keysOf, alookup]
  | cons e rest ih =>
      obtain ⟨ek, ev⟩ := e
      by_cases h1 : ek = x
      · subst h1
        simp [keysOf, alookup]
      · simp [keysOf, alookup, h1, Ne.symm h1] at ih ⊢
        exact ih

theorem keysOf_updKey {K V : Type} [DecidableEq K] (m : List (K × V))
    (k : K) (v : V) :
    keysOf (updKey m k v) = if (alookup m k).isSome then keysOf m
      else keysOf m ++ [k] := by
  induction m with
  | nil => simp [updKey, keysOf, alookup]
  | cons e rest ih =>
      obtain ⟨ek, ev⟩ := e
      by_cases h1 : ek = k
      · subst h1
        simp [updKey, keysOf, alookup]
      · simp only [keysOf] at ih
        simp [updKey, keysOf, alookup, h1, ih]
        by_cases h2 : (alookup rest k).isSome <;> simp [h2]

/-! ### `memory.Spatial` (src/unnamed/part_000) -/

/-- Go `map[string]struct{}`: the object-name set at the bottom level. -/
abbrev ObjSet := List (Str × Unit)

abbrev Arenas := List (Str × ObjSet)

abbrev Sectors := List (Str × Arenas)

/-- `memory.Worlds`: `world → sector → arena → object → ()`. -/
abbrev Worlds := List (Str × Sectors)

/-- The world step of `Spatial.Register`: add the top-level entry for a
non-empty world segment when missing. -/
def registerWorld (ws : Worlds) (p : Path) : Worlds :=
  if p.world = [] then ws
  else if hasKey ws p.world then ws
  else updKey ws p.world []

/-- The sector step of `Spatial.Register`.  When the world entry is
missing, the Go code's insert assigns into a nil map and panics
(modelled as `none`); a lookup hit leaves the store untouched. -/
def registerSector (ws : Worlds) (p : Path) : Option Worlds :=
  if p.sector = [] then some ws
  else
    match alookup ws p.world with
    | none => none
    | some sectors =>
        if hasKey sectors p.sector then some ws
        else some (updKey ws p.world (updKey sectors p.sector []))

/-- The arena step of `Spatial.Register`. -/
def registerArena (ws : Worlds) (p : Path) : Option Worlds :=
  if p.arena = [] then some ws
  else
    match alookup ws p.world with
    | none => none
    | some sectors =>
        match alookup sectors p.sector with
        | none => none
        | some arenas =>
            if hasKey arenas p.arena then some ws
            else some (updKey ws p.world
              (updKey sectors p.sector (updKey arenas p.arena [])))

/-- The object step of `Spatial.Register`. -/
def registerObject (ws : Worlds) (p : Path) : Option Worlds :=
  if p.object = [] then some ws
  else
    match alookup ws p.world with
    | none => none
    | some sectors =>
        match alookup sectors p.sector with
        | none => none
        | some arenas =>
            match alookup arenas p.arena with
            | none => none
            | some objects =>
                if hasKey objects p.object then some ws
                else some (updKey ws p.world (updKey sectors p.sector
                  (updKey arenas p.arena (updKey objects p.object ()))))

/-- `Spatial.Register`: the four level steps in program order. -/
def register (ws : Worlds) (p : Path) : Option Worlds :=
  (registerSector (registerWorld ws p) p).bind fun ws2 =>
    (registerArena ws2 p).bind fun ws3 => registerObject ws3 p

/-- A sequence of `Register` calls from a given store state. -/
def registerSeq (ws0 : Worlds) (ps : List Path) : Option Worlds :=
  ps.foldl (fun acc p => acc.bind fun ws => register ws p) (some ws0)

/-- A sequence of `Register` calls on `NewSpatial()` (empty store). -/
def registerAll (ps : List Path) : Option Worlds := registerSeq [] ps

/-- `memory.PathLevel` (the Go iota constants, `Invalid` first). -/
inductive PathLevel
  | invalid
  | world
  | sector
  | arena
  | object
deriving DecidableEq, Repr

/-- The numeric value of the Go iota constant, for `<=` comparisons. -/
def PathLevel.idx : PathLevel → Nat
  | .invalid => 0
  | .world => 1
  | .sector => 2
  | .arena => 3
  | .object => 4

/-- `Path.Get`.  Go panics on an invalid level; `GetKnown` only calls it
at the three valid intermediate levels, so the `invalid` branch is
unreachable there. -/
def Path.get (p : Path) : PathLevel → Str
  | .invalid => []
  | .world => p.world
  | .sector => p.sector
  | .arena => p.arena
  | .object => p.object

/-- `Spatial.GetKnown`: child keys one level below the deepest populated
query prefix. -/
def getKnown (ws : Worlds) (p : Path) (level : PathLevel) : List Str :=
  if level = .invalid then []
  else if level.idx ≤ PathLevel.world.idx then keysOf ws
  else
    match alookup ws (p.get .world) with
    | none => []
    | some sectors =>
        if level.idx ≤ PathLevel.sector.idx then keysOf sectors
        else
          match alookup sectors (p.get .sector) with
          | none => []
          | some arenas =>
              if level.idx ≤ PathLevel.arena.idx then keysOf arenas
              else
                match alookup arenas (p.get .arena) with
                | none => []
                | some objects => keysOf objects

/-- A `Path` acceptable to `Register`: every set segment has all higher
segments set, so no step assigns into a nil map.  (The top segment MAY be
empty here: such a path registers nothing.) -/
def Path.regWf (p : Path) : Prop :=
  (p.sector ≠ [] → p.world ≠ []) ∧ (p.arena ≠ [] → p.sector ≠ []) ∧
    (p.object ≠ [] → p.arena ≠ [])

instance : DecidablePred Path.regWf := fun p => by unfold Path.regWf; infer_instance

/-- Spec-side predicate: the single call `Register p` records the
level-`level` segment value `x` under the higher-level prefix of the
query path `q` ("the set of distinct level-L segment values registered
under the matching higher-level prefix"). -/
def registersAt (p : Path) (q : Path) (level : PathLevel) (x : Str) : Prop :=
  match level with
  | .invalid => False
  | .world => p.world = x ∧ x ≠ []
  | .sector => p.world = q.world ∧ p.sector = x ∧ x ≠ []
  | .arena => p.world = q.world ∧ p.sector = q.sector ∧ p.arena = x ∧ x ≠ []
  | .object => p.world = q.world ∧ p.sector = q.sector ∧ p.arena = q.arena ∧
      p.object = x ∧ x ≠ []

/-! The four membership views of a spatial store, one per level,
phrased so that each level nests the next. -/

def known1 {V : Type} (m : List (Str × V)) (x : Str) : Prop :=
  (alookup m x).isSome

def known2 {V : Type} (m : List (Str × List (Str × V))) (k x : Str) : Prop :=
  ∃ mm, alookup m k = some mm ∧ known1 mm x

def known3 {V : Type} (m : List (Str × List (Str × List (Str × V))))
    (k1 k2 x : Str) : Prop :=
  ∃ mm, alookup m k1 = some mm ∧ known2 mm k2 x

def known4 {V : Type}
    (m : List (Str × List (Str × List (Str × List (Str × V)))))
    (k1 k2 k3 x : Str) : Prop :=
  ∃ mm, alookup m k1 = some mm ∧ known3 mm k2 k3 x


theorem updKey_updKey {K V : Type} [DecidableEq K] (m : List (K × V))
    (k : K) (v v2 : V) : updKey (updKey m k v) k v2 = updKey m k v2 := by
  induction m with
  | nil => simp [updKey]
  | cons e rest ih =>
      obtain ⟨ek, ev⟩ := e
      by_cases h1 : ek = k <;> simp [updKey, h1, ih]

/-- Update the value stored at `k` (with zero-value default `d`) through
`f` — the net effect of one level of `Spatial.Register`. -/
def overKey {K V : Type} [DecidableEq K] (m : List (K × V)) (k : K) (d : V)
    (f : V → V) : List (K × V) :=
  updKey m k (f ((alookup m k).getD d))

theorem alookup_overKey_self {K V : Type} [DecidableEq K] (m : List (K × V))
    (k : K) (d : V) (f : V → V) :
    alookup (overKey m k d f) k = some (f ((alookup m k).getD d)) := by
  simp [overKey, alookup_updKey]

theorem alookup_overKey_ne {K V : Type} [DecidableEq K] (m : List (K × V))
    (k : K) (d : V) (f : V → V) (k2 : K) (h : ¬ k = k2) :
    alookup (overKey m k d f) k2 = alookup m k2 := by
  simp [overKey, alookup_updKey, h]

/-- The successful result of `Spatial.Register`, written as one nested
value update (derived form; `register_eq_pure` proves it equal to the
step-by-step transliteration whenever no step panics). -/
def registerPure (ws : Worlds) (p : Path) : Worlds :=
  if p.world = [] then ws else
  overKey ws p.world [] (fun ss =>
    if p.sector = [] then ss else
    overKey ss p.sector [] (fun ar =>
      if p.arena = [] then ar else
      overKey ar p.arena [] (fun ob =>
        if p.object = [] then ob else updKey ob p.object ())))

theorem registerWorld_eq (ws : Worlds) (p : Path) (hw : p.world ≠ []) :
    registerWorld ws p = overKey ws p.world [] id := by
  unfold registerWorld overKey
  rw [if_neg hw]
  by_cases h : (alookup ws p.world).isSome
  · obtain ⟨v, hv⟩ := Option.isSome_iff_exists.mp h
    simp [hasKey, hv, updKey_self ws p.world v hv]
  · have hn : alookup ws p.world = none := Option.not_isSome_iff_eq_none.mp h
    simp [hasKey, hn]

theorem registerSector_canon (ws : Worlds) (p : Path) (hs : p.sector ≠ [])
    (s0 : Sectors) (hW : alookup ws p.world = some s0) :
    registerSector ws p = some (updKey ws p.world
      (updKey s0 p.sector ((alookup s0 p.sector).getD []))) := by
  unfold registerSector
  rw [if_neg hs, hW]
  by_cases h : (alookup s0 p.sector).isSome
  · obtain ⟨v, hv⟩ := Option.isSome_iff_exists.mp h
    simp [hasKey, hv, updKey_self s0 p.sector v hv, updKey_self ws p.world s0 hW]
  · have hn : alookup s0 p.sector = none := Option.not_isSome_iff_eq_none.mp h
    simp [hasKey, hn]

theorem registerArena_canon (ws : Worlds) (p : Path) (ha : p.arena ≠ [])
    (s0 : Sectors) (a0 : Arenas) (hW : alookup ws p.world = some s0)
    (hS : alookup s0 p.sector = some a0) :
    registerArena ws p = some (updKey ws p.world (updKey s0 p.sector
      (updKey a0 p.arena ((alookup a0 p.arena).getD [])))) := by
  unfold registerArena
  rw [if_neg ha]
  simp only [hW, hS]
  by_cases h : (alookup a0 p.arena).isSome
  · obtain ⟨v, hv⟩ := Option.isSome_iff_exists.mp h
    simp [hasKey, hv, updKey_self a0 p.arena v hv, updKey_self s0 p.sector a0 hS,
      updKey_self ws p.world s0 hW]
  · have hn : alookup a0 p.arena = none := Option.not_isSome_iff_eq_none.mp h
    simp [hasKey, hn]

theorem registerObject_canon (ws : Worlds) (p : Path) (ho : p.object ≠ [])
    (s0 : Sectors) (a0 : Arenas) (o0 : ObjSet) (hW : alookup ws p.world = some s0)
    (hS : alookup s0 p.sector = some a0) (hA : alookup a0 p.arena = some o0) :
    registerObject ws p = some (updKey ws p.world (updKey s0 p.sector
      (updKey a0 p.arena (updKey o0 p.object ())))) := by
  unfold registerObject
  rw [if_neg ho]
  simp only [hW, hS, hA]
  by_cases h : (alookup o0 p.object).isSome
  · obtain ⟨v, hv⟩ := Option.isSome_iff_exists.mp h
    have hv2 : updKey o0 p.object () = o0 := by
      have : v = () := rfl
      subst this
      exact updKey_self o0 p.object () hv
    simp [hasKey, hv, hv2, updKey_self a0 p.arena o0 hA,
      updKey_self s0 p.sector a0 hS, updKey_self ws p.world s0 hW]
  · have hn : alookup o0 p.object = none := Option.not_isSome_iff_eq_none.mp h
    simp [hasKey, hn]

theorem register_eq_pure (ws : Worlds) (p : Path) (hp : p.regWf) :
    register ws p = some (registerPure ws p) := by
  obtain ⟨w, s, a, o⟩ := p
  obtain ⟨hsw, has, hoa⟩ := hp
  by_cases hw : w = []
  · have hs : s = [] := by by_contra h; exact hsw h hw
    have ha : a = [] := by by_contra h; exact has h hs
    have ho : o = [] := by by_contra h; exact hoa h ha
    subst hw; subst hs; subst ha; subst ho
    simp [register, registerWorld, registerSector, registerArena, registerObject,
      registerPure]
  · have hW := registerWorld_eq ws ⟨w, s, a, o⟩ hw
    have hW1 : alookup (registerWorld ws ⟨w, s, a, o⟩) w =
        some ((alookup ws w).getD []) := by
      rw [hW]
      simpa using alookup_overKey_self ws w [] id
    by_cases hs : s = []
    · have ha : a = [] := by by_contra h; exact has h hs
      have ho : o = [] := by by_contra h; exact hoa h ha
      subst hs; subst ha; subst ho
      simp [register, registerSector, registerArena, registerObject,
        registerPure, hw, hW]
      rfl
    · have hsec := registerSector_canon (registerWorld ws ⟨w, s, a, o⟩)
        ⟨w, s, a, o⟩ hs ((alookup ws w).getD []) hW1
      set s0 := (alookup ws w).getD [] with hs0
      set s1 := (alookup s0 s).getD [] with hs1
      have hcol : updKey (registerWorld ws ⟨w, s, a, o⟩) w (updKey s0 s s1) =
          updKey ws w (updKey s0 s s1) := by
        rw [hW]
        simp [overKey, updKey_updKey]
      by_cases ha : a = []
      · have ho : o = [] := by by_contra h; exact hoa h ha
        subst ha; subst ho
        rw [register, hsec]
        simp only [Option.some_bind]
        rw [hcol]
        simp [registerArena, registerObject, registerPure, hw, hs, overKey]
      · -- the sector-step result and its lookups
        have hW2 : alookup (updKey ws w (updKey s0 s s1)) w =
            some (updKey s0 s s1) := by
          simp [alookup_updKey]
        have hS2 : alookup (updKey s0 s s1) s = some s1 := by
          simp [alookup_updKey]
        have harena := registerArena_canon (updKey ws w (updKey s0 s s1))
          ⟨w, s, a, o⟩ ha (updKey s0 s s1) s1 hW2 hS2
        set s2 := (alookup s1 a).getD [] with hs2
        have hcol2 : updKey (updKey ws w (updKey s0 s s1)) w
            (updKey (updKey s0 s s1) s (updKey s1 a s2)) =
            updKey ws w (updKey s0 s (updKey s1 a s2)) := by
          rw [updKey_updKey, updKey_updKey]
        by_cases ho : o = []
        · subst ho
          rw [register, hsec]
          simp only [Option.some_bind]
          rw [hcol, harena]
          simp only [Option.some_bind]
          rw [hcol2]
          simp [registerObject, registerPure, hw, hs, ha, overKey]
        · have hW3 : alookup (updKey ws w (updKey s0 s (updKey s1 a s2))) w =
              some (updKey s0 s (updKey s1 a s2)) := by
            simp [alookup_updKey]
          have hS3 : alookup (updKey s0 s (updKey s1 a s2)) s =
              some (updKey s1 a s2) := by
            simp [alookup_updKey]
          have hA3 : alookup (updKey s1 a s2) a = some s2 := by
            simp [alookup_updKey]
          have hobj := registerObject_canon
            (updKey ws w (updKey s0 s (updKey s1 a s2))) ⟨w, s, a, o⟩ ho
            (updKey s0 s (updKey s1 a s2)) (updKey s1 a s2) s2 hW3 hS3 hA3
          rw [register, hsec]
          simp only [Option.some_bind]
          rw [hcol, harena]
          simp only [Option.some_bind]
          rw [hcol2, hobj]
          rw [updKey_updKey, updKey_updKey, updKey_updKey]
          simp [registerPure, hw, hs, ha, ho, overKey]

theorem known1_nil {V : Type} (x : Str) : ¬ known1 ([] : List (Str × V)) x := by
  simp [known1, alookup]

theorem known2_nil {V : Type} (k x : Str) :
    ¬ known2 ([] : List (Str × List (Str × V))) k x := by
  simp [known2, alookup]

theorem known3_nil {V : Type} (k1 k2 x : Str) :
    ¬ known3 ([] : List (Str × List (Str × List (Str × V)))) k1 k2 x := by
  simp [known3, alookup]

theorem known1_getD {V : Type} (m : List (Str × List (Str × V))) (k x : Str) :
    known1 ((alookup m k).getD []) x ↔ known2 m k x := by
  cases h : alookup m k with
  | none => simp [known2, h, known1, alookup]
  | some v => simp [known2, h]

theorem known2_getD {V : Type} (m : List (Str × List (Str × List (Str × V))))
    (k k2 x : Str) :
    known2 ((alookup m k).getD []) k2 x ↔ known3 m k k2 x := by
  cases h : alookup m k with
  | none => simp [known3, h, known2, alookup]
  | some v => simp [known3, h]

theorem known3_getD {V : Type}
    (m : List (Str × List (Str × List (Str × List (Str × V)))))
    (k k2 k3 x : Str) :
    known3 ((alookup m k).getD []) k2 k3 x ↔ known4 m k k2 k3 x := by
  cases h : alookup m k with
  | none => simp [known4, h, known3, alookup]
  | some v => simp [known4, h]

theorem known1_overKey_self {V : Type} (m : List (Str × V)) (x : Str)
    (d : V) (f : V → V) : known1 (overKey m x d f) x := by
  simp [known1, alookup_overKey_self]

theorem known1_overKey_ne {V : Type} (m : List (Str × V)) (k : Str) (d : V)
    (f : V → V) (x : Str) (h : ¬ k = x) :
    known1 (overKey m k d f) x ↔ known1 m x := by
  simp [known1, alookup_overKey_ne _ _ _ _ _ h]

theorem known2_overKey_self {V : Type} (m : List (Str × List (Str × V)))
    (k x : Str) (f : List (Str × V) → List (Str × V)) :
    known2 (overKey m k [] f) k x ↔ known1 (f ((alookup m k).getD [])) x := by
  simp [known2, alookup_overKey_self]

theorem known2_overKey_ne {V : Type} (m : List (Str × List (Str × V)))
    (k : Str) (f : List (Str × V) → List (Str × V)) (k2 x : Str)
    (h : ¬ k = k2) : known2 (overKey m k [] f) k2 x ↔ known2 m k2 x := by
  simp [known2, alookup_overKey_ne _ _ _ _ _ h]

theorem known3_overKey_self {V : Type}
    (m : List (Str × List (Str × List (Str × V)))) (k k2 x : Str)
    (f : List (Str × List (Str × V)) → List (Str × List (Str × V))) :
    known3 (overKey m k [] f) k k2 x ↔
      known2 (f ((alookup m k).getD [])) k2 x := by
  simp [known3, alookup_overKey_self]

theorem known3_overKey_ne {V : Type}
    (m : List (Str × List (Str × List (Str × V)))) (k : Str)
    (f : List (Str × List (Str × V)) → List (Str × List (Str × V)))
    (k1 k2 x : Str) (h : ¬ k = k1) :
    known3 (overKey m k [] f) k1 k2 x ↔ known3 m k1 k2 x := by
  simp [known3, alookup_overKey_ne _ _ _ _ _ h]

theorem known4_overKey_self {V : Type}
    (m : List (Str × List (Str × List (Str × List (Str × V)))))
    (k k2 k3 x : Str)
    (f : List (Str × List (Str × List (Str × V))) →
      List (Str × List (Str × List (Str × V)))) :
    known4 (overKey m k [] f) k k2 k3 x ↔
      known3 (f ((alookup m k).getD [])) k2 k3 x := by
  simp [known4, alookup_overKey_self]

theorem known4_overKey_ne {V : Type}
    (m : List (Str × List (Str × List (Str × List (Str × V))))) (k : Str)
    (f : List (Str × List (Str × List (Str × V))) →
      List (Str × List (Str × List (Str × V))))
    (k1 k2 k3 x : Str) (h : ¬ k = k1) :
    known4 (overKey m k [] f) k1 k2 k3 x ↔ known4 m k1 k2 k3 x := by
  simp [known4, alookup_overKey_ne _ _ _ _ _ h]

theorem knownW_registerPure (ws : Worlds) (p : Path) (x : Str) :
    known1 (registerPure ws p) x ↔
      (known1 ws x ∨ (p.world = x ∧ x ≠ [])) := by
  unfold registerPure
  by_cases hw : p.world = []
  · rw [if_pos hw]
    exact (or_iff_left (by rintro ⟨h1, h2⟩; exact h2 (h1 ▸ hw))).symm
  · rw [if_neg hw]
    by_cases hx : p.world = x
    · subst hx
      simp [known1_overKey_self, hw]
    · rw [known1_overKey_ne _ _ _ _ _ hx]
      simp [hx]

theorem knownS_registerPure (ws : Worlds) (p : Path) (hp : p.regWf)
    (wn x : Str) :
    known2 (registerPure ws p) wn x ↔
      (known2 ws wn x ∨ (p.world = wn ∧ p.sector = x ∧ x ≠ [])) := by
  obtain ⟨hsw, has, hoa⟩ := hp
  unfold registerPure
  by_cases hw : p.world = []
  · have hs : p.sector = [] := by by_contra h; exact hsw h hw
    rw [if_pos hw]
    exact (or_iff_left (by rintro ⟨h1, h2, h3⟩; exact h3 (h2 ▸ hs))).symm
  · rw [if_neg hw]
    by_cases hwn : p.world = wn
    · subst hwn
      rw [known2_overKey_self]
      by_cases hs : p.sector = []
      · simp only [if_pos hs, known1_getD]
        exact (or_iff_left (by rintro ⟨h1, h2, h3⟩; exact h3 (h2 ▸ hs))).symm
      · simp only [if_neg hs]
        by_cases hsx : p.sector = x
        · subst hsx
          simp [known1_overKey_self, hs]
        · rw [known1_overKey_ne _ _ _ _ _ hsx, known1_getD]
          simp [hsx]
    · rw [known2_overKey_ne _ _ _ _ _ hwn]
      simp [hwn]

theorem knownA_registerPure (ws : Worlds) (p : Path) (hp : p.regWf)
    (wn sn x : Str) :
    known3 (registerPure ws p) wn sn x ↔
      (known3 ws wn sn x ∨
        (p.world = wn ∧ p.sector = sn ∧ p.arena = x ∧ x ≠ [])) := by
  obtain ⟨hsw, has, hoa⟩ := hp
  unfold registerPure
  by_cases hw : p.world = []
  · have hs : p.sector = [] := by by_contra h; exact hsw h hw
    have ha : p.arena = [] := by by_contra h; exact has h hs
    rw [if_pos hw]
    exact (or_iff_left (by rintro ⟨h1, h2, h3, h4⟩; exact h4 (h3 ▸ ha))).symm
  · rw [if_neg hw]
    by_cases hwn : p.world = wn
    · subst hwn
      rw [known3_overKey_self]
      by_cases hs : p.sector = []
      · have ha : p.arena = [] := by by_contra h; exact has h hs
        simp only [if_pos hs, known2_getD]
        exact (or_iff_left (by rintro ⟨h1, h2, h3, h4⟩; exact h4 (h3 ▸ ha))).symm
      · simp only [if_neg hs]
        by_cases hsn : p.sector = sn
        · subst hsn
          rw [known2_overKey_self]
          by_cases ha : p.arena = []
          · simp only [if_pos ha, known1_getD, known2_getD]
            exact (or_iff_left
              (by rintro ⟨h1, h2, h3, h4⟩; exact h4 (h3 ▸ ha))).symm
          · simp only [if_neg ha]
            by_cases hax : p.arena = x
            · subst hax
              simp [known1_overKey_self, ha]
            · rw [known1_overKey_ne _ _ _ _ _ hax, known1_getD, known2_getD]
              simp [hax]
        · rw [known2_overKey_ne _ _ _ _ _ hsn, known2_getD]
          simp [hsn]
    · rw [known3_overKey_ne _ _ _ _ _ _ hwn]
      simp [hwn]

theorem knownO_registerPure (ws : Worlds) (p : Path) (hp : p.regWf)
    (wn sn an x : Str) :
    known4 (registerPure ws p) wn sn an x ↔
      (known4 ws wn sn an x ∨
        (p.world = wn ∧ p.sector = sn ∧ p.arena = an ∧ p.object = x ∧
          x ≠ [])) := by
  obtain ⟨hsw, has, hoa⟩ := hp
  unfold registerPure
  by_cases hw : p.world = []
  · have hs : p.sector = [] := by by_contra h; exact hsw h hw
    have ha : p.arena = [] := by by_contra h; exact has h hs
    have ho : p.object = [] := by by_contra h; exact hoa h ha
    rw [if_pos hw]
    exact (or_iff_left
      (by rintro ⟨h1, h2, h3, h4, h5⟩; exact h5 (h4 ▸ ho))).symm
  · rw [if_neg hw]
    by_cases hwn : p.world = wn
    · subst hwn
      rw [known4_overKey_self]
      by_cases hs : p.sector = []
      · have ha : p.arena = [] := by by_contra h; exact has h hs
        have ho : p.object = [] := by by_contra h; exact hoa h ha
        simp only [if_pos hs, known3_getD]
        exact (or_iff_left
          (by rintro ⟨h1, h2, h3, h4, h5⟩; exact h5 (h4 ▸ ho))).symm
      · simp only [if_neg hs]
        by_cases hsn : p.sector = sn
        · subst hsn
          rw [known3_overKey_self]
          by_cases ha : p.arena = []
          · have ho : p.object = [] := by by_contra h; exact hoa h ha
            simp only [if_pos ha, known2_getD, known3_getD]
            exact (or_iff_left
              (by rintro ⟨h1, h2, h3, h4, h5⟩; exact h5 (h4 ▸ ho))).symm
          · simp only [if_neg ha]
            by_cases han : p.arena = an
            · subst han
              rw [known2_overKey_self]
              by_cases ho : p.object = []
              · simp only [if_pos ho, known1_getD, known2_getD, known3_getD]
                exact (or_iff_left
                  (by rintro ⟨h1, h2, h3, h4, h5⟩; exact h5 (h4 ▸ ho))).symm
              · simp only [if_neg ho]
                by_cases hox : p.object = x
                · subst hox
                  have hself : known1
                      (updKey ((alookup ((alookup ((alookup ws p.world).getD
                        []) p.sector).getD []) p.arena).getD []) p.object ())
                      p.object := by
                    simp [known1, alookup_updKey]
                  simp [hself, ho]
                · have hne : ∀ (m : ObjSet),
                      known1 (updKey m p.object ()) x ↔ known1 m x := by
                    intro m
                    simp [known1, alookup_updKey, hox]
                  rw [hne, known1_getD, known2_getD, known3_getD]
                  simp [hox]
            · rw [known2_overKey_ne _ _ _ _ _ han, known2_getD, known3_getD]
              simp [han]
        · rw [known3_overKey_ne _ _ _ _ _ _ hsn, known3_getD]
          simp [hsn]
    · rw [known4_overKey_ne _ _ _ _ _ _ _ hwn]
      simp [hwn]

theorem registerSeq_known (ps : List Path) : ∀ ws0 : Worlds,
    (∀ p ∈ ps, p.regWf) →
    ∃ ws, registerSeq ws0 ps = some ws ∧
      (∀ x, known1 ws x ↔
        (known1 ws0 x ∨ ∃ p ∈ ps, p.world = x ∧ x ≠ [])) ∧
      (∀ wn x, known2 ws wn x ↔ (known2 ws0 wn x ∨
        ∃ p ∈ ps, p.world = wn ∧ p.sector = x ∧ x ≠ [])) ∧
      (∀ wn sn x, known3 ws wn sn x ↔ (known3 ws0 wn sn x ∨
        ∃ p ∈ ps, p.world = wn ∧ p.sector = sn ∧ p.arena = x ∧ x ≠ [])) ∧
      (∀ wn sn an x, known4 ws wn sn an x ↔ (known4 ws0 wn sn an x ∨
        ∃ p ∈ ps, p.world = wn ∧ p.sector = sn ∧ p.arena = an ∧
          p.object = x ∧ x ≠ [])) := by
  induction ps with
  | nil =>
      intro ws0 _
      exact ⟨ws0, rfl, by simp, by simp, by simp, by simp⟩
  | cons p ps ih =>
      intro ws0 hwf
      have hp : p.regWf := hwf p (by simp)
      have hps : ∀ q ∈ ps, q.regWf := fun q hq => hwf q (by simp [hq])
      obtain ⟨ws, hseq, h1, h2, h3, h4⟩ := ih (registerPure ws0 p) hps
      refine ⟨ws, ?_, ?_, ?_, ?_, ?_⟩
      · simpa [registerSeq, register_eq_pure ws0 p hp] using hseq
      · intro x
        rw [h1 x, knownW_registerPure, List.exists_mem_cons_iff]
        tauto
      · intro wn x
        rw [h2 wn x, knownS_registerPure ws0 p hp, List.exists_mem_cons_iff]
        tauto
      · intro wn sn x
        rw [h3 wn sn x, knownA_registerPure ws0 p hp, List.exists_mem_cons_iff]
        tauto
      · intro wn sn an x
        rw [h4 wn sn an x, knownO_registerPure ws0 p hp,
          List.exists_mem_cons_iff]
        tauto

theorem mem_getKnown (ws : Worlds) (q : Path) (level : PathLevel) (x : Str) :
    x ∈ getKnown ws q level ↔
      (match level with
       | .invalid => False
       | .world => known1 ws x
       | .sector => known2 ws q.world x
       | .arena => known3 ws q.world q.sector x
       | .object => known4 ws q.world q.sector q.arena x) := by
  cases level with
  | invalid => simp [getKnown]
  | world => simp [getKnown, PathLevel.idx, mem_keysOf, known1]
  | sector =>
      cases h : alookup ws q.world with
      | none => simp [getKnown, PathLevel.idx, Path.get, h, known2]
      | some ss =>
          simp [getKnown, PathLevel.idx, Path.get, h, known2, mem_keysOf,
            known1]
  | arena =>
      cases h : alookup ws q.world with
      | none => simp [getKnown, PathLevel.idx, Path.get, h, known3]
      | some ss =>
          cases h2 : alookup ss q.sector with
          | none =>
              simp [getKnown, PathLevel.idx, Path.get, h, h2, known3, known2]
          | some ar =>
              simp [getKnown, PathLevel.idx, Path.get, h, h2, known3, known2,
                mem_keysOf, known1]
  | object =>
      cases h : alookup ws q.world with
      | none => simp [getKnown, PathLevel.idx, Path.get, h, known4]
      | some ss =>
          cases h2 : alookup ss q.sector with
          | none =>
              simp [getKnown, PathLevel.idx, Path.get, h, h2, known4, known3]
          | some ar =>
              cases h3 : alookup ar q.arena with
              | none =>
                  simp [getKnown, PathLevel.idx, Path.get, h, h2, h3, known4,
                    known3, known2]
              | some ob =>
                  simp [getKnown, PathLevel.idx, Path.get, h, h2, h3, known4,
                    known3, known2, mem_keysOf, known1]

/-- Spec-side: some call in the sequence registered `x` at `level` under
the higher-level prefix of the query `q`. -/
def registeredAt (ps : List Path) (q : Path) (level : PathLevel)
    (x : Str) : Prop :=
  ∃ p ∈ ps, registersAt p q level x

theorem getKnown_char (ps : List Path) (hwf : ∀ p ∈ ps, p.regWf) :
    ∃ ws, registerAll ps = some ws ∧
      ∀ q level x, x ∈ getKnown ws q level ↔ registeredAt ps q level x := by
  obtain ⟨ws, hws, h1, h2, h3, h4⟩ := registerSeq_known ps [] hwf
  refine ⟨ws, hws, ?_⟩
  intro q level x
  rw [mem_getKnown]
  cases level with
  | invalid => simp [registeredAt, registersAt]
  | world =>
      rw [h1 x]
      simp [known1, alookup, registeredAt, registersAt]
  | sector =>
      rw [h2 q.world x]
      simp [known2, alookup, registeredAt, registersAt]
  | arena =>
      rw [h3 q.world q.sector x]
      simp [known3, alookup, registeredAt, registersAt]
  | object =>
      rw [h4 q.world q.sector q.arena x]
      simp [known4, alookup, registeredAt, registersAt]

/-- **C8.**  For every sequence of `Register` calls on well-formed paths,
(a) `GetKnown(q, level)` contains exactly the distinct level-`level`
segment values registered under the matching higher-level prefix of `q`,
and (b) the resulting membership is unchanged under any permutation of
the `Register` calls (registration is idempotent and commutative on set
membership). -/
theorem getKnown_registerAll (ps ps2 : List Path)
    (hwf : ∀ p ∈ ps, p.regWf) (hperm : ps.Perm ps2) :
    ∃ ws ws2, registerAll ps = some ws ∧ registerAll ps2 = some ws2 ∧
      (∀ q level x, x ∈ getKnown ws q level ↔ registeredAt ps q level x) ∧
      (∀ q level x, x ∈ getKnown ws q level ↔ x ∈ getKnown ws2 q level) := by
  have hwf2 : ∀ p ∈ ps2, p.regWf := fun p hp =>
    hwf p (hperm.mem_iff.mpr hp)
  obtain ⟨ws, hws, hchar⟩ := getKnown_char ps hwf
  obtain ⟨ws2, hws2, hchar2⟩ := getKnown_char ps2 hwf2
  refine ⟨ws, ws2, hws, hws2, hchar, ?_⟩
  intro q level x
  rw [hchar q level x, hchar2 q level x]
  unfold registeredAt
  constructor
  · rintro ⟨p, hp, h⟩
    exact ⟨p, hperm.mem_iff.mp hp, h⟩
  · rintro ⟨p, hp, h⟩
    exact ⟨p, hperm.mem_iff.mpr hp, h⟩

/-- Concrete register sequences for the C8 witness. -/
def wps : List Path :=
  [⟨['w'], ['s'], [], []⟩, ⟨['w'], ['t'], ['a'], []⟩, ⟨['w'], ['s'], [], []⟩]

/-- `wps` with the calls reordered. -/
def wps2 : List Path :=
  [⟨['w'], ['t'], ['a'], []⟩, ⟨['w'], ['s'], [], []⟩, ⟨['w'], ['s'], [], []⟩]

/-- Witness for `getKnown_registerAll` at concrete call sequences. -/
theorem getKnown_registerAll_witness :
    (∀ p ∈ wps, p.regWf) ∧ wps.Perm wps2 ∧
      ∃ ws ws2, registerAll wps = some ws ∧ registerAll wps2 = some ws2 ∧
        (∀ q level x, x ∈ getKnown ws q level ↔
          registeredAt wps q level x) ∧
        (∀ q level x, x ∈ getKnown ws q level ↔ x ∈ getKnown ws2 q level) :=
  ⟨by decide, by decide, getKnown_registerAll wps wps2 (by decide) (by decide)⟩

/-! ### `memory.Associative` (src/simulation_server/memory/path.go)

Node ids are natural numbers (Go `int`, never negative here).  Times are
nanosecond counts (Go `time.Time` is only compared in the embedded
operations).  Embedding vectors use exact rationals in place of
`float64`; see the retrieval section. -/

abbrev NodeId := Nat

/-- `memory.NodeType` (Go iota constants, `Invalid` first). -/
inductive NodeType
  | invalid
  | thought
  | event
  | chat
deriving DecidableEq, Repr

/-- `memory.Utterance`. -/
structure Utterance where
  speaker : String
  sentence : String
deriving DecidableEq, Repr

/-- `memory.SPO`. -/
structure SPO where
  subject : String
  predicate : String
  object : String
deriving DecidableEq, Repr

/-- `memory.ConceptNode`. -/
structure ConceptNode where
  id : NodeId
  nodeCount : Nat
  typeCount : Nat
  type : NodeType
  depth : Int
  created : Int
  lastAccessed : Int
  expiration : Option Int
  subject : String
  predicate : String
  object : String
  description : String
  embeddingKey : String
  importance : Int
  valence : Int
  keywords : List String
  evidence : List NodeId
  chat : List Utterance
deriving DecidableEq, Repr

/-- The Go zero-value node stored at index 0 of the node log. -/
def emptyNode : ConceptNode :=
  { id := 0, nodeCount := 0, typeCount := 0, type := .invalid, depth := 0,
    created := 0, lastAccessed := 0, expiration := none, subject := "",
    predicate := "", object := "", description := "", embeddingKey := "",
    importance := 0, valence := 0, keywords := [], evidence := [],
    chat := [] }

/-- `memory.Associative`. -/
structure Associative where
  nodes : List ConceptNode
  events : List NodeId
  thoughts : List NodeId
  chats : List NodeId
  kwToEvents : List (String × List NodeId)
  kwToThoughts : List (String × List NodeId)
  kwToChats : List (String × List NodeId)
  kwStrengthEvents : List (String × Int)
  kwStrengthThoughts : List (String × Int)
  embeddings : List (String × List ℚ)
deriving Repr

/-- `memory.NewAssociative`: node ids start at 1, so index 0 holds an
empty node. -/
def newAssociative (embeddings : List (String × List ℚ))
    (kwStrengthEvents kwStrengthThoughts : List (String × Int)) :
    Associative :=
  { nodes := [emptyNode], events := [], thoughts := [], chats := [],
    kwToEvents := [], kwToThoughts := [], kwToChats := [],
    kwStrengthEvents := kwStrengthEvents,
    kwStrengthThoughts := kwStrengthThoughts, embeddings := embeddings }

/-- `Associative.GetNode`.  Go indexes the slice and panics out of
range; every embedded call site uses ids present in the log. -/
def getNode (store : Associative) (id : NodeId) : ConceptNode :=
  store.nodes.getD id emptyNode

/-- Go `strings.ToLower`, modelled on the character list (the standard
library's `String.toLower` does not reduce inside the kernel).  Agrees
with Go on ASCII, which is all the keyword text the system produces. -/
def lowerChar (c : Char) : Char :=
  if 65 ≤ c.toNat ∧ c.toNat ≤ 90 then Char.ofNat (c.toNat + 32) else c

/-- Lower-case a keyword. -/
def toLowerStr (s : String) : String := String.mk (s.data.map lowerChar)

/-- Prepend an id to a keyword's id list, creating the list if the
keyword is new (the shared shape of the three `kwTo*` updates). -/
def prependKw (m : List (String × List NodeId)) (kw : String)
    (id : NodeId) : List (String × List NodeId) :=
  match alookup m kw with
  | some kws => updKey m kw (id :: kws)
  | none => updKey m kw [id]

/-- `Associative.AddEvent`.  The Go code lower-cases the caller's
keywords slice in place after building the node; the node's `Keywords`
field aliases that same backing array, so the node observably stores the
lower-cased keywords, which is what this embedding records. -/
def addEvent (store : Associative) (spo : SPO) (description : String)
    (keywords : List String) (importance valence : Int)
    (evidence : List NodeId) (created : Int) (expiration : Option Int)
    (embeddingKey : String) (embedding : List ℚ) :
    Associative × ConceptNode :=
  let nodeCount := store.nodes.length
  let typeCount := store.events.length
  let nodeId := nodeCount
  let lowered := keywords.map toLowerStr
  let node : ConceptNode :=
    { id := nodeId, nodeCount := nodeCount, typeCount := typeCount,
      type := .event, depth := 0, created := created,
      lastAccessed := created, expiration := expiration,
      subject := spo.subject, predicate := spo.predicate,
      object := spo.object, description := description,
      embeddingKey := embeddingKey, importance := importance,
      valence := valence, keywords := lowered, evidence := evidence,
      chat := [] }
  let store2 :=
    { store with
      nodes := store.nodes ++ [node],
      events := nodeId :: store.events,
      kwToEvents :=
        lowered.foldl (fun m kw => prependKw m kw nodeId) store.kwToEvents,
      kwStrengthEvents :=
        if spo.predicate ≠ "is" ∧ spo.object ≠ "idle" then
          lowered.foldl (fun m kw => updKey m kw (alookupD m kw 0 + 1))
            store.kwStrengthEvents
        else store.kwStrengthEvents,
      embeddings := updKey store.embeddings embeddingKey embedding }
  (store2, node)

/-- `Associative.AddThought`: depth is 1 plus the maximal depth over the
evidence nodes. -/
def addThought (store : Associative) (spo : SPO) (description : String)
    (keywords : List String) (importance valence : Int)
    (evidence : List NodeId) (created : Int) (expiration : Option Int)
    (embeddingKey : String) (embedding : List ℚ) :
    Associative × ConceptNode :=
  let nodeCount := store.nodes.length
  let typeCount := store.thoughts.length
  let nodeId := nodeCount
  let depth : Int :=
    1 + evidence.foldl (fun md id => max md (getNode store id).depth) 0
  let lowered := keywords.map toLowerStr
  let node : ConceptNode :=
    { id := nodeId, nodeCount := nodeCount, typeCount := typeCount,
      type := .thought, depth := depth, created := created,
      lastAccessed := created, expiration := expiration,
      subject := spo.subject, predicate := spo.predicate,
      object := spo.object, description := description,
      embeddingKey := embeddingKey, importance := importance,
      valence := valence, keywords := lowered, evidence := evidence,
      chat := [] }
  let store2 :=
    { store with
      nodes := store.nodes ++ [node],
      thoughts := nodeId :: store.thoughts,
      kwToThoughts :=
        lowered.foldl (fun m kw => prependKw m kw nodeId) store.kwToThoughts,
      kwStrengthThoughts :=
        if spo.predicate ≠ "is" ∧ spo.object ≠ "idle" then
          lowered.foldl (fun m kw => updKey m kw (alookupD m kw 0 + 1))
            store.kwStrengthThoughts
        else store.kwStrengthThoughts,
      embeddings := updKey store.embeddings embeddingKey embedding }
  (store2, node)

/-- `Associative.AddChat`.  NOTE: the Go code computes `typeCount` from
`len(store.thoughts)`, not `len(store.chats)` — transliterated as-is. -/
def addChat (store : Associative) (spo : SPO) (description : String)
    (keywords : List String) (importance valence : Int)
    (chat : List Utterance) (created : Int) (expiration : Option Int)
    (embeddingKey : String) (embedding : List ℚ) :
    Associative × ConceptNode :=
  let nodeCount := store.nodes.length
  let typeCount := store.thoughts.length
  let nodeId := nodeCount
  let lowered := keywords.map toLowerStr
  let node : ConceptNode :=
    { id := nodeId, nodeCount := nodeCount, typeCount := typeCount,
      type := .chat, depth := 0, created := created,
      lastAccessed := created, expiration := expiration,
      subject := spo.subject, predicate := spo.predicate,
      object := spo.object, description := description,
      embeddingKey := embeddingKey, importance := importance,
      valence := valence, keywords := lowered, evidence := [],
      chat := chat }
  let store2 :=
    { store with
      nodes := store.nodes ++ [node],
      chats := nodeId :: store.chats,
      kwToChats :=
        lowered.foldl (fun m kw => prependKw m kw nodeId) store.kwToChats,
      embeddings := updKey store.embeddings embeddingKey embedding }
  (store2, node)

/-- Insertion into a Go `map[NodeId]struct{}` used as a set (the list
order stands in for the map's unspecified iteration order; theorems use
only membership). -/
def setInsert (l : List NodeId) (x : NodeId) : List NodeId :=
  if x ∈ l then l else l ++ [x]

/-- `Associative.RetrieveRelevantEvents`.  NOTE: the Go body reads
`store.kwToThoughts`, not `store.kwToEvents` — transliterated as-is. -/
def retrieveRelevantEvents (store : Associative)
    (subject predicate object : String) : List NodeId :=
  [subject, predicate, object].foldl (fun ret i =>
    match alookup store.kwToThoughts i with
    | some thoughts => thoughts.foldl (fun r t => setInsert r t) ret
    | none => ret) []

/-- `Associative.RetrieveRelevantThoughts` (same body as
`RetrieveRelevantEvents` in the Go code). -/
def retrieveRelevantThoughts (store : Associative)
    (subject predicate object : String) : List NodeId :=
  [subject, predicate, object].foldl (fun ret i =>
    match alookup store.kwToThoughts i with
    | some thoughts => thoughts.foldl (fun r t => setInsert r t) ret
    | none => ret) []

/-- `Associative.GetLatestEventIds`. -/
def getLatestEventIds (store : Associative) : List NodeId := store.events

/-- `Associative.GetLatestThoughtIds`. -/
def getLatestThoughtIds (store : Associative) : List NodeId := store.thoughts

/-- What the spec says `RetrieveRelevantEvents` returns: the union of
the EVENT-type keyword index entries for the three strings, each used
independently as a keyword. -/
def relevantEventsSpec (store : Associative)
    (subject predicate object : String) : List NodeId :=
  [subject, predicate, object].foldl (fun ret i =>
    match alookup store.kwToEvents i with
    | some evs => evs.foldl (fun r t => setInsert r t) ret
    | none => ret) []

/-- A store holding exactly one event, keyword `"a"`, and no thoughts. -/
def c5Store : Associative :=
  (addEvent (newAssociative [] [] []) ⟨"a", "p", "o"⟩ "d" ["a"] 1 0 [] 0
    none "k" [1]).1

/-- **C5.**  On a store with one event indexed under keyword `"a"` and
no thoughts, `RetrieveRelevantEvents("a","a","a")` returns the empty
set, while the event-type keyword index holds node 1: the Go body reads
the THOUGHT index (`kwToThoughts`), so the claimed equality with the
event-index union fails. -/
theorem retrieveRelevantEvents_reads_thought_index :
    retrieveRelevantEvents c5Store "a" "a" "a" = [] ∧
    relevantEventsSpec c5Store "a" "a" "a" = [1] ∧
    (1 : NodeId) ∉ retrieveRelevantEvents c5Store "a" "a" "a" ∧
    (1 : NodeId) ∈ relevantEventsSpec c5Store "a" "a" "a" := by decide

/-- A store holding exactly one thought and no chats. -/
def c6Store : Associative :=
  (addThought (newAssociative [] [] []) ⟨"s", "p", "o"⟩ "t" ["k"] 1 0 []
    0 none "ek" [1]).1

/-- **C6.**  Adding the first chat to a store that holds one thought and
zero chats produces a chat node with type-ordinal 1 (the thought count),
not 0 (the chat count): `AddChat` computes its ordinal from
`len(store.thoughts)`. -/
theorem addChat_typeCount_uses_thought_count :
    c6Store.chats.length = 0 ∧
    (addChat c6Store ⟨"s2", "p2", "o2"⟩ "c" ["k"] 1 0 [] 0 none "ck"
      [1]).2.typeCount = 1 := by decide

/-! ### C7: the latest-event-id list after `N` `AddEvent` calls -/

/-- The argument record of one `AddEvent` call. -/
structure EventArgs where
  spo : SPO
  description : String
  keywords : List String
  importance : Int
  valence : Int
  evidence : List NodeId
  created : Int
  expiration : Option Int
  embeddingKey : String
  embedding : List ℚ

/-- Run a sequence of `AddEvent` calls. -/
def addEvents (store : Associative) (argsList : List EventArgs) :
    Associative :=
  argsList.foldl (fun s a =>
    (addEvent s a.spo a.description a.keywords a.importance a.valence
      a.evidence a.created a.expiration a.embeddingKey a.embedding).1)
    store

/-- `[n, n-1, ..., 1]`. -/
def idsDown : Nat → List NodeId
  | 0 => []
  | n + 1 => (n + 1) :: idsDown n

theorem length_idsDown (n : Nat) : (idsDown n).length = n := by
  induction n with
  | zero => rfl
  | succ n ih => simp [idsDown, ih]

theorem mem_idsDown (n m : Nat) : m ∈ idsDown n ↔ 1 ≤ m ∧ m ≤ n := by
  induction n with
  | zero =>
      simp only [idsDown, List.not_mem_nil, false_iff]
      omega
  | succ n ih =>
      simp only [idsDown, List.mem_cons, ih]
      constructor
      · rintro (rfl | ⟨h1, h2⟩) <;> omega
      · rintro ⟨h1, h2⟩
        rcases Nat.lt_or_ge m (n + 1) with h | h
        · exact Or.inr ⟨h1, by omega⟩
        · exact Or.inl (by omega)

theorem pairwise_idsDown (n : Nat) :
    List.Pairwise (fun a b => a > b) (idsDown n) := by
  induction n with
  | zero => simp [idsDown]
  | succ n ih =>
      refine List.Pairwise.cons ?_ ih
      intro m hm
      have := (mem_idsDown n m).mp hm
      show n + 1 > m
      omega

theorem addEvents_events (argsList : List EventArgs) :
    ∀ store : Associative,
    store.events = idsDown store.events.length →
    store.nodes.length = store.events.length + 1 →
    (addEvents store argsList).events =
      idsDown (store.events.length + argsList.length) ∧
    (addEvents store argsList).nodes.length =
      store.events.length + argsList.length + 1 := by
  induction argsList with
  | nil =>
      intro store h1 h2
      constructor
      · simpa [addEvents] using h1
      · simpa [addEvents] using h2
  | cons a rest ih =>
      intro store h1 h2
      have hstep :
          (addEvent store a.spo a.description a.keywords a.importance
            a.valence a.evidence a.created a.expiration a.embeddingKey
            a.embedding).1.events = store.nodes.length :: store.events ∧
          (addEvent store a.spo a.description a.keywords a.importance
            a.valence a.evidence a.created a.expiration a.embeddingKey
            a.embedding).1.nodes.length = store.nodes.length + 1 := by
        constructor <;> simp [addEvent]
      set store2 := (addEvent store a.spo a.description a.keywords
        a.importance a.valence a.evidence a.created a.expiration
        a.embeddingKey a.embedding).1 with hstore2
      have h1b : store2.events = idsDown store2.events.length := by
        rw [hstep.1, h2, h1]
        simp [idsDown, length_idsDown]
      have h2b : store2.nodes.length = store2.events.length + 1 := by
        rw [hstep.2, hstep.1, h2]
        simp
      have hlen : store2.events.length = store.events.length + 1 := by
        rw [hstep.1, h2]
        simp
      obtain ⟨ha, hb⟩ := ih store2 h1b h2b
      have hfold : addEvents store (a :: rest) = addEvents store2 rest := by
        simp [addEvents, hstore2]
      rw [hfold]
      rw [ha, hb, hlen]
      constructor
      · have : store.events.length + 1 + rest.length =
            store.events.length + (rest.length + 1) := by omega
        rw [this]
        simp
      · simp only [List.length_cons]
        omega

/-- **C7.**  After any sequence of `N` `AddEvent` calls on a freshly
created store, `GetLatestEventIds()` has length `N`, is strictly
decreasing (ids are assigned increasingly and prepended, so the list is
newest-first), and every id is unique and nonzero. -/
theorem getLatestEventIds_after_addEvents (argsList : List EventArgs)
    (embeddings : List (String × List ℚ))
    (kwE kwT : List (String × Int)) :
    (getLatestEventIds
        (addEvents (newAssociative embeddings kwE kwT) argsList)).length =
      argsList.length ∧
    List.Pairwise (fun a b => a > b)
      (getLatestEventIds (addEvents (newAssociative embeddings kwE kwT)
        argsList)) ∧
    (getLatestEventIds
        (addEvents (newAssociative embeddings kwE kwT) argsList)).Nodup ∧
    ∀ id ∈ getLatestEventIds
        (addEvents (newAssociative embeddings kwE kwT) argsList),
      id ≠ 0 := by
  have h := addEvents_events argsList (newAssociative embeddings kwE kwT)
    rfl rfl
  have hzero : (newAssociative embeddings kwE kwT).events.length = 0 := rfl
  rw [hzero, Nat.zero_add] at h
  have hev : (addEvents (newAssociative embeddings kwE kwT)
      argsList).events = idsDown argsList.length := h.1
  refine ⟨?_, ?_, ?_, ?_⟩
  · simp [getLatestEventIds, hev, length_idsDown]
  · simpa [getLatestEventIds, hev] using pairwise_idsDown argsList.length
  · rw [getLatestEventIds, hev]
    exact (pairwise_idsDown argsList.length).imp Nat.ne_of_gt
  · intro id hid
    rw [getLatestEventIds, hev] at hid
    have := (mem_idsDown argsList.length id).mp hid
    exact Nat.one_le_iff_ne_zero.mp this.1

/-! ### Retrieval / ranking engine (src/unnamed/part_006)

Scores use exact rationals in place of `float64`: every claim below is a
control-flow property (which rank feeds the decay, which entries a
selection keeps, whether an option is applied), not a rounding
property. -/

/-- The persona state fields read by focal-point retrieval. -/
structure PersonaState where
  recencyDecay : ℚ
  currentTime : Int
  recencyWeight : ℚ
  importanceWeight : ℚ
  relevanceWeight : ℚ
  valenceWeight : ℚ

/-- `retrievalConfig`. -/
structure RetrievalConfig where
  count : Nat

/-- `withRetrievalCount`. -/
def withRetrievalCount (n : Nat) : RetrievalConfig → RetrievalConfig :=
  fun rc => { rc with count := n }

/-- Integer square root by bounded search (kernel-computable). -/
def isqrt (n : Nat) : Nat :=
  (List.range (n + 1)).foldl (fun acc k => if k * k ≤ n then k else acc) 0

/-- `math.Sqrt`, exact on the perfect-square norms that the embedded
evaluations produce; no theorem evaluates it elsewhere. -/
def ratSqrt (q : ℚ) : ℚ := (isqrt q.num.toNat : ℚ) / (isqrt q.den : ℚ)

/-- `cosineSimilarity`.  Go panics on length mismatch, empty vectors and
zero norms; no embedded evaluation reaches those cases, and `ℚ` division
by zero yields 0 where Go would have panicked. -/
def cosineSimilarity (a b : List ℚ) : ℚ :=
  let dot := (a.zip b).foldl (fun acc p => acc + p.1 * p.2) 0
  let na := a.foldl (fun acc x => acc + x * x) 0
  let nb := b.foldl (fun acc x => acc + x * x) 0
  dot / (ratSqrt na * ratSqrt nb)

/-- `normalizeMap`: min–max normalization onto `[targetMin, targetMax]`,
an all-equal vector mapping to the midpoint.  `ℚ` has no NaN, so the
NaN-skipping reads and the all-NaN panic of the Go code cannot trigger;
the empty map (which panics in Go) is returned unchanged and is never
produced by the embedded callers. -/
def normalizeMap (m : List (NodeId × ℚ)) (targetMin targetMax : ℚ) :
    List (NodeId × ℚ) :=
  match m.map Prod.snd with
  | [] => m
  | v :: vs =>
      let mn := vs.foldl min v
      let mx := vs.foldl max v
      if mx = mn then m.map (fun kv => (kv.1, (targetMax - targetMin) / 2))
      else m.map (fun kv =>
        (kv.1, ((kv.2 - mn) * (targetMax - targetMin)) / (mx - mn) +
          targetMin))

/-- `clampAndFlip`: negate negatives, clamp positives. -/
def clampAndFlip (m : List (NodeId × ℚ)) (clamp : ℚ) :
    List (NodeId × ℚ) :=
  m.map (fun kv => if kv.2 < 0 then (kv.1, -kv.2) else (kv.1, min kv.2 clamp))

/-- One step of the value sort inside `highestNValues` (ascending by
score; Go's `slices.SortFunc` is unstable, so tie order is unspecified —
embedded evaluations use distinct scores). -/
def insertByVal (kv : NodeId × ℚ) :
    List (NodeId × ℚ) → List (NodeId × ℚ)
  | [] => [kv]
  | kv2 :: rest =>
      if kv.2 ≤ kv2.2 then kv :: kv2 :: rest else kv2 :: insertByVal kv rest

/-- `highestNValues`: sort ascending by score with `cmp.Compare` and
keep the FIRST `n` entries (`values[:n]`), transliterated as-is. -/
def highestNValues (m : List (NodeId × ℚ)) (n : Nat) :
    List (NodeId × ℚ) :=
  (m.foldr insertByVal []).take n

/-- `strings.HasPrefix` on character lists. -/
def startsWith : List Char → List Char → Bool
  | [], _ => true
  | _ :: _, [] => false
  | a :: as2, b :: bs => a == b && startsWith as2 bs

/-- `strings.Contains` on character lists. -/
def containsChars (needle : List Char) : List Char → Bool
  | [] => needle.isEmpty
  | c :: rest => startsWith needle (c :: rest) || containsChars needle rest

/-- `strings.Contains`. -/
def containsSub (hay needle : String) : Bool :=
  containsChars needle.data hay.data

/-- The candidate gathering of `retrieveForFocalPoints`: all latest
event and thought ids, dropping nodes whose embedding key contains
`"idle"`. -/
def focalCandidates (store : Associative) : List NodeId :=
  (getLatestEventIds store ++ getLatestThoughtIds store).filter
    (fun n => !(containsSub (getNode store n).embeddingKey "idle"))

/-- One step of the candidate sort (ascending by `LastAccessed`; the Go
sort is unstable, so tie order is unspecified — embedded evaluations use
distinct times). -/
def insertByLA (store : Associative) (n : NodeId) :
    List NodeId → List NodeId
  | [] => [n]
  | m :: rest =>
      if (getNode store n).lastAccessed ≤ (getNode store m).lastAccessed
      then n :: m :: rest else m :: insertByLA store n rest

/-- The candidate list sorted ascending by `LastAccessed`. -/
def sortByLastAccessed (store : Associative) (ns : List NodeId) :
    List NodeId :=
  ns.foldr (insertByLA store) []

/-- The sorted candidate list that the four score extractors receive. -/
def focalSorted (store : Associative) : List NodeId :=
  sortByLastAccessed store (focalCandidates store)

/-- The indexed loop of `extractRecency`:
`out[node] = decay^(i+1)` for the `i`-th node of the list.  Candidate
lists hold distinct ids (the per-type id lists never repeat an id), so
this pair list represents the Go map faithfully. -/
def extractRecencyAux (decay : ℚ) : Nat → List NodeId → List (NodeId × ℚ)
  | _, [] => []
  | i, n :: ns => (n, decay ^ (i + 1)) :: extractRecencyAux decay (i + 1) ns

/-- `extractRecency`. -/
def extractRecency (p : PersonaState) (nodes : List NodeId) :
    List (NodeId × ℚ) :=
  extractRecencyAux p.recencyDecay 0 nodes

/-- `extractImportance`. -/
def extractImportance (store : Associative) (nodes : List NodeId) :
    List (NodeId × ℚ) :=
  nodes.map (fun n => (n, ((getNode store n).importance : ℚ)))

/-- `extractValence`. -/
def extractValence (store : Associative) (nodes : List NodeId) :
    List (NodeId × ℚ) :=
  nodes.map (fun n => (n, ((getNode store n).valence : ℚ)))

/-- `Associative.GetEmbeddingByNodeId`; `extractRelevance` discards the
`ok` flag, so a missing key flows on as the zero value (nil slice). -/
def getEmbeddingByNodeId (store : Associative) (id : NodeId) : List ℚ :=
  (alookup store.embeddings (getNode store id).embeddingKey).getD []

/-- `Persona.GetEmbedding`: the cache lookup.  On a miss Go calls the
external embedder and caches the result; embedded evaluations always
pre-cache the needed keys. -/
def personaGetEmbedding (store : Associative) (str : String) : List ℚ :=
  (alookup store.embeddings str).getD []

/-- `extractRelevance`. -/
def extractRelevance (store : Associative) (nodes : List NodeId)
    (focalPoint : String) : List (NodeId × ℚ) :=
  let focalEmbedding := personaGetEmbedding store focalPoint
  nodes.map (fun n =>
    (n, cosineSimilarity (getEmbeddingByNodeId store n) focalEmbedding))

/-- `UpdateNode` with the retrieval callback: bump `LastAccessed`. -/
def updateNodeLA (store : Associative) (id : NodeId) (t : Int) :
    Associative :=
  { store with
    nodes := store.nodes.set id { getNode store id with lastAccessed := t } }

/-- The body of the `retrieveForFocalPoints` loop for one focal point:
score the sorted candidates, keep `highestNValues` of the weighted sum,
bump each kept node's `LastAccessed`. -/
def retrieveOneFocalPoint (p : PersonaState) (store : Associative)
    (focalPoint : String) (count : Nat) : List NodeId × Associative :=
  let nodes := focalSorted store
  let recencyS := normalizeMap (extractRecency p nodes) 0 1
  let importanceS := normalizeMap (extractImportance store nodes) 0 1
  let relevanceS := normalizeMap (extractRelevance store nodes focalPoint) 0 1
  let valenceS := normalizeMap (clampAndFlip (extractValence store nodes) 0) 0 1
  let wRecency : ℚ := 1
  let wImportance : ℚ := 1
  let wRelevance : ℚ := 1
  let wValence : ℚ := 1
  let out := nodes.map (fun key =>
    (key, alookupD recencyS key 0 * wRecency * p.recencyWeight +
      alookupD importanceS key 0 * wImportance * p.importanceWeight +
      alookupD relevanceS key 0 * wRelevance * p.relevanceWeight +
      alookupD valenceS key 0 * wValence * p.valenceWeight))
  let kept := highestNValues out count
  let outNodes := kept.map Prod.fst
  let store2 := outNodes.foldl (fun s k => updateNodeLA s k p.currentTime) store
  (outNodes, store2)

/-- `retrieveForFocalPoints`.  NOTE: the Go function builds the default
config (`count = 30`) and never applies `retrievalOpts` — transliterated
as-is: the `retrievalOpts` argument is unused. -/
def retrieveForFocalPoints (p : PersonaState) (store : Associative)
    (focalPoints : List String)
    (retrievalOpts : List (RetrievalConfig → RetrievalConfig)) :
    List (String × List NodeId) × Associative :=
  let config : RetrievalConfig := { count := 30 }
  focalPoints.foldl
    (fun (acc : List (String × List NodeId) × Associative) fp =>
      let r := retrieveOneFocalPoint p acc.2 fp config.count
      (acc.1 ++ [(fp, r.1)], r.2))
    ([], store)

/-- **C1.**  `highestNValues` sorts ascending and keeps the FIRST `n`
entries, i.e. the `n` LOWEST scores: with final scores `{1 ↦ 0, 2 ↦ 1}`
and `n = 1` it keeps node 1 and drops node 2, whose score is strictly
higher — so a kept node can score strictly below a dropped one,
contradicting top-N retention. -/
theorem highestNValues_keeps_lowest :
    highestNValues [(1, (0 : ℚ)), (2, 1)] 1 = [(1, 0)] ∧ ((0 : ℚ) < 1) := by
  constructor
  · decide
  · decide

theorem length_insertByVal (kv : NodeId × ℚ) (l : List (NodeId × ℚ)) :
    (insertByVal kv l).length = l.length + 1 := by
  induction l with
  | nil => rfl
  | cons kv2 rest ih =>
      by_cases h : kv.2 ≤ kv2.2 <;> simp [insertByVal, h, ih]

theorem length_sortByVal (m : List (NodeId × ℚ)) :
    (m.foldr insertByVal []).length = m.length := by
  induction m with
  | nil => rfl
  | cons kv rest ih => simp [length_insertByVal, ih]

/-- The number of ids one focal-point pass returns is always
`min count (number of candidates)` — the scores never change it. -/
theorem length_retrieveOneFocalPoint (p : PersonaState)
    (store : Associative) (focalPoint : String) (count : Nat) :
    (retrieveOneFocalPoint p store focalPoint count).1.length =
      min count (focalSorted store).length := by
  simp [retrieveOneFocalPoint, highestNValues, length_sortByVal]

/-- A store holding two non-idle events (last accessed at 10 and 20),
with embeddings cached for both nodes and the focal string. -/
def retrStore : Associative :=
  (addEvent ((addEvent (newAssociative [("f", [1])] [] [])
      ⟨"s1", "p1", "o1"⟩ "d1" ["k1"] 1 0 [] 10 none "e1" [1]).1)
    ⟨"s2", "p2", "o2"⟩ "d2" ["k2"] 2 0 [] 20 none "e2" [1]).1

/-- The retrieval-relevant persona state used by the evaluations. -/
def retrP : PersonaState :=
  { recencyDecay := 1/2, currentTime := 100, recencyWeight := 1,
    importanceWeight := 1, relevanceWeight := 1, valenceWeight := 1 }

/-- **C10.**  A caller passing `withRetrievalCount 1` still gets every
candidate back (here both nodes of a two-candidate store):
`retrieveForFocalPoints` never applies its `retrievalOpts`, so the
configured count is silently ignored and the default 30 is used. -/
theorem withRetrievalCount_ignored :
    ((retrieveForFocalPoints retrP retrStore ["f"]
        [withRetrievalCount 1]).1.map (fun kv => kv.2.length)) = [2] := by
  have h2 : (focalSorted retrStore).length = 2 := by decide
  simp [retrieveForFocalPoints, length_retrieveOneFocalPoint, h2]

/-- **C4, counterexample.**  In `retrStore` the chronological latest-id
lists are `[2, 1]` (newest first), so the claimed recency of node 2 is
`decay^(0+1) = 1/2`; but the pipeline sorts candidates ascending by
last-accessed time (giving `[1, 2]`) before `extractRecency`, so node 2
actually scores `decay^(1+1) = 1/4`. -/
theorem recency_rank_not_chronological :
    alookupD (extractRecency retrP (focalSorted retrStore)) 2 0 ≠
      retrP.recencyDecay ^
        (((getLatestEventIds retrStore ++
            getLatestThoughtIds retrStore).indexOf 2) + 1) := by
  have h1 : focalSorted retrStore = [1, 2] := by decide
  have h2 : (getLatestEventIds retrStore ++
      getLatestThoughtIds retrStore).indexOf 2 = 0 := by decide
  rw [h1, h2]
  simp [extractRecency, extractRecencyAux, alookupD, alookup, retrP]
  norm_num

/-- **C4, amended.**  The recency score handed to normalization is
`decay^(i+1)` where `i` is the node's position in the candidate list
sorted ascending by last-accessed time (not its position in the
chronological latest-id lists). -/
theorem recency_rank_in_sorted_order (p : PersonaState)
    (store : Associative) (n : NodeId) (hm : n ∈ focalSorted store) :
    alookup (extractRecency p (focalSorted store)) n =
      some (p.recencyDecay ^ ((focalSorted store).indexOf n + 1)) := by
  have haux : ∀ (ns : List NodeId) (i : Nat), n ∈ ns →
      alookup (extractRecencyAux p.recencyDecay i ns) n =
        some (p.recencyDecay ^ (i + ns.indexOf n + 1)) := by
    intro ns
    induction ns with
    | nil => intro i h; simp at h
    | cons m rest ih =>
        intro i h
        by_cases heq : m = n
        · subst heq
          simp [extractRecencyAux, alookup, List.indexOf_cons_self]
        · have hmem : n ∈ rest := by
            rcases List.mem_cons.mp h with h2 | h2
            · exact absurd h2.symm heq
            · exact h2
          rw [List.indexOf_cons_ne _ heq]
          simp only [extractRecencyAux, alookup, heq, if_false]
          rw [ih (i + 1) hmem]
          have hx : i + 1 + rest.indexOf n + 1 =
              i + (rest.indexOf n).succ + 1 := by omega
          rw [hx]
  have := haux (focalSorted store) 0 hm
  simpa [extractRecency] using this

/-- Witness for `recency_rank_in_sorted_order` at node 2 of the
concrete store. -/
theorem recency_rank_in_sorted_order_witness :
    2 ∈ focalSorted retrStore ∧
      alookup (extractRecency retrP (focalSorted retrStore)) 2 =
        some (retrP.recencyDecay ^ ((focalSorted retrStore).indexOf 2 + 1)) :=
  ⟨by decide, recency_rank_in_sorted_order retrP retrStore 2 (by decide)⟩

/-! ### `createReact`'s daily-schedule splice (src/unnamed/part_007)

Instants are nanosecond offsets from the persona's `StartOfDay`;
durations are minutes (`llm.Plan.Duration`), scaled by `nsPerMin` where
the Go code converts to `time.Duration`. -/

/-- `llm.Plan`. -/
structure Plan where
  activity : String
  duration : Int
deriving DecidableEq, Repr

/-- `time.Minute` in nanoseconds. -/
def nsPerMin : Int := 60000000000

/-- Total schedule duration in minutes. -/
def sumDur : List Plan → Int
  | [] => 0
  | p :: rest => p.duration + sumDur rest

theorem sumDur_append (l1 l2 : List Plan) :
    sumDur (l1 ++ l2) = sumDur l1 + sumDur l2 := by
  induction l1 with
  | nil => simp [sumDur]
  | cons p rest ih => simp [sumDur, ih]; ring

/-- The persona state read by `createReact`: the original and live daily
schedules, and the elapsed time of day of `CurrentTime` in nanoseconds
(hour/minute/second/nanosecond, as `GetOriginalDailyPlanIndex` sums
them). -/
structure SpliceState where
  originalDailySchedule : List Plan
  dailySchedule : List Plan
  nowNs : Int

/-- The loop of `GetDailyPlanIndexInMinutes` /
`GetOriginalDailyPlanIndexInMinutes`: return the first index whose
running end exceeds the elapsed time, or the schedule length. -/
def dailyPlanIndexAux (tNs : Int) : List Plan → Int → Nat
  | [], _ => 0
  | p :: rest, elapsed =>
      let elapsed2 := elapsed + p.duration * nsPerMin
      if tNs < elapsed2 then 0 else 1 + dailyPlanIndexAux tNs rest elapsed2

/-- Schedule index for an elapsed time of day. -/
def dailyPlanIndex (sched : List Plan) (tNs : Int) : Nat :=
  dailyPlanIndexAux tNs sched 0

/-- `createReact`'s `startTime` as an offset: the summed original
durations before the current original index. -/
def reactStartNs (st : SpliceState) : Int :=
  sumDur (st.originalDailySchedule.take
    (dailyPlanIndex st.originalDailySchedule st.nowNs)) * nsPerMin

/-- `createReact`'s `endTime` as an offset.  The Go code indexes
`OriginalDailySchedule[idx]` and panics when the index is out of range
(modelled as `none`): a current entry of ≥ 120 minutes ends the window
at that entry's end; otherwise the next entry is appended when present;
otherwise the window is two hours. -/
def reactEndNs (st : SpliceState) : Option Int :=
  let idx := dailyPlanIndex st.originalDailySchedule st.nowNs
  match st.originalDailySchedule.get? idx with
  | none => none
  | some plan =>
      if plan.duration ≥ 120 then
        some (reactStartNs st + plan.duration * nsPerMin)
      else if st.originalDailySchedule.length > idx + 1 then
        match st.originalDailySchedule.get? (idx + 1) with
        | none => none
        | some plan2 =>
            some (reactStartNs st +
              (plan.duration + plan2.duration) * nsPerMin)
      else some (reactStartNs st + 120 * nsPerMin)

/-- The `startIndex`/`endIndex` scan of `createReact`: the first index
whose prefix duration has reached the target offset (`durSum` is
checked before the entry's duration is added).  `none` models the `-1`
the Go code leaves when the scan never reaches the target, on which the
subsequent slice expressions panic. -/
def spliceIndexAux (target : Int) : List Plan → Int → Nat → Option Nat
  | [], _, _ => none
  | p :: rest, durSum, i =>
      if ¬ durSum < target then some i
      else spliceIndexAux target rest (durSum + p.duration * nsPerMin) (i + 1)

/-- First schedule index whose prefix duration reaches `target`. -/
def spliceIndex (sched : List Plan) (target : Int) : Option Nat :=
  spliceIndexAux target sched 0 0

/-- The daily-schedule splice performed by `createReact`:
`DailySchedule[:startIndex] ++ newPlans ++ DailySchedule[endIndex:]`,
with `newPlans` the cognition-generated replacement plans. -/
def createReactSplice (st : SpliceState) (newPlans : List Plan) :
    Option (List Plan) :=
  match reactEndNs st with
  | none => none
  | some endNs =>
      match spliceIndex st.dailySchedule (reactStartNs st),
          spliceIndex st.dailySchedule endNs with
      | some si, some ei =>
          some (st.dailySchedule.take si ++ newPlans ++
            st.dailySchedule.drop ei)
      | _, _ => none

/-- A live schedule summing to 1440 whose entry boundaries do not line
up with the reaction window `[0, 120)` derived from the original
schedule. -/
def c3Bad : SpliceState :=
  { originalDailySchedule := [⟨"A", 60⟩, ⟨"B", 60⟩, ⟨"C", 1320⟩],
    dailySchedule := [⟨"X", 50⟩, ⟨"Y", 60⟩, ⟨"Z", 70⟩, ⟨"W", 1260⟩],
    nowNs := 0 }

/-- **C3, counterexample.**  Before the splice the schedule sums to 1440
and the replacement plans sum to the reaction window's 120 minutes, yet
after the splice the schedule sums to 1380: the scan removes the three
entries `[50, 60, 70]` (180 minutes) because the window's end, minute
120, falls inside the third entry. -/
theorem createReact_splice_breaks_1440 :
    sumDur c3Bad.dailySchedule = 1440 ∧
    reactStartNs c3Bad = 0 ∧
    reactEndNs c3Bad = some (120 * nsPerMin) ∧
    sumDur [Plan.mk "chat" 120] * nsPerMin = 120 * nsPerMin - 0 ∧
    (createReactSplice c3Bad [Plan.mk "chat" 120]).map sumDur =
      some 1380 := by
  refine ⟨by decide, by decide, by decide, by decide, by decide⟩

/-- **C3, amended.**  The splice preserves the 1440-minute total under
the claim's assumptions PLUS the alignment the counterexample forces:
the window boundaries must fall on entry boundaries of the live
schedule (prefix durations at `startIndex`/`endIndex` equal the window's
start/end), so that the removed entries sum exactly to the window
duration the replacement plans are validated against. -/
theorem createReact_splice_preserves_1440 (st : SpliceState)
    (newPlans : List Plan) (endNs : Int) (si ei : Nat)
    (hsum : sumDur st.dailySchedule = 1440)
    (hend : reactEndNs st = some endNs)
    (hsi : spliceIndex st.dailySchedule (reactStartNs st) = some si)
    (hei : spliceIndex st.dailySchedule endNs = some ei)
    (hwin : sumDur newPlans * nsPerMin = endNs - reactStartNs st)
    (halignS : sumDur (st.dailySchedule.take si) * nsPerMin =
      reactStartNs st)
    (halignE : sumDur (st.dailySchedule.take ei) * nsPerMin = endNs) :
    (createReactSplice st newPlans).map sumDur = some 1440 := by
  have hns : nsPerMin ≠ 0 := by decide
  have hkey : (sumDur (st.dailySchedule.take si) + sumDur newPlans -
      sumDur (st.dailySchedule.take ei)) * nsPerMin = 0 := by
    rw [sub_mul, add_mul, halignS, halignE, hwin]
    ring
  have hzero : sumDur (st.dailySchedule.take si) + sumDur newPlans -
      sumDur (st.dailySchedule.take ei) = 0 := by
    rcases mul_eq_zero.mp hkey with h | h
    · exact h
    · exact absurd h hns
  have hsplit : sumDur (st.dailySchedule.take ei) +
      sumDur (st.dailySchedule.drop ei) = 1440 := by
    rw [← sumDur_append, List.take_append_drop, hsum]
  simp only [createReactSplice, hend, hsi, hei, Option.map_some',
    Option.some.injEq]
  rw [sumDur_append, sumDur_append]
  linarith [hzero, hsplit]

/-- A splice state whose live schedule still matches the original, so
the window `[0, 120)` is boundary-aligned. -/
def c3Good : SpliceState :=
  { originalDailySchedule := [⟨"A", 60⟩, ⟨"B", 60⟩, ⟨"C", 1320⟩],
    dailySchedule := [⟨"A", 60⟩, ⟨"B", 60⟩, ⟨"C", 1320⟩],
    nowNs := 0 }

/-- Witness for `createReact_splice_preserves_1440` at a concrete
aligned state. -/
theorem createReact_splice_preserves_1440_witness :
    sumDur c3Good.dailySchedule = 1440 ∧
    reactEndNs c3Good = some (120 * nsPerMin) ∧
    spliceIndex c3Good.dailySchedule (reactStartNs c3Good) = some 0 ∧
    spliceIndex c3Good.dailySchedule (120 * nsPerMin) = some 2 ∧
    sumDur [Plan.mk "chat" 120] * nsPerMin =
      120 * nsPerMin - reactStartNs c3Good ∧
    sumDur (c3Good.dailySchedule.take 0) * nsPerMin =
      reactStartNs c3Good ∧
    sumDur (c3Good.dailySchedule.take 2) * nsPerMin = 120 * nsPerMin ∧
    (createReactSplice c3Good [Plan.mk "chat" 120]).map sumDur =
      some 1440 :=
  ⟨by decide, by decide, by decide, by decide, by decide, by decide,
    by decide,
    createReact_splice_preserves_1440 c3Good [Plan.mk "chat" 120]
      (120 * nsPerMin) 0 2 (by decide) (by decide) (by decide) (by decide)
      (by decide) (by decide) (by decide)⟩

/-! ### `Maze.Pathfind` (src/simulation_server/maze/path_finder.go) -/

/-- `maze.TilePos`. -/
structure TilePos where
  x : Nat
  y : Nat
deriving DecidableEq, Repr

/-- The wavefront distance grid (`distMaze`), row-major `[y][x]`. -/
abbrev DistGrid := List (List Nat)

/-- The collision grid, row-major `[y][x]`. -/
abbrev CollisionGrid := List (List Bool)

/-- `d[i][j]` (all embedded accesses are in bounds, as in the Go code). -/
def gget (d : DistGrid) (i j : Nat) : Nat := (d.getD i []).getD j 0

/-- `collisionInfo[i][j]`. -/
def cget (c : CollisionGrid) (i j : Nat) : Bool :=
  (c.getD i []).getD j false

/-- `d[i][j] = v`. -/
def gset (d : DistGrid) (i j v : Nat) : DistGrid :=
  d.set i ((d.getD i []).set j v)

/-- The body of `makeStep` for one cell: skip unless the cell carries
the frontier value `k`, otherwise assign `k+1` to each unvisited,
uncollided 4-neighbor (north, west, south, east, threading the grid in
the Go statement order). -/
def stepCell (c : CollisionGrid) (k : Nat) (d : DistGrid) (i j : Nat) :
    DistGrid :=
  if gget d i j ≠ k then d
  else
    let d := if i > 0 ∧ gget d (i-1) j = 0 ∧ !(cget c (i-1) j) then
      gset d (i-1) j (k+1) else d
    let d := if j > 0 ∧ gget d i (j-1) = 0 ∧ !(cget c i (j-1)) then
      gset d i (j-1) (k+1) else d
    let d := if i < d.length - 1 ∧ gget d (i+1) j = 0 ∧ !(cget c (i+1) j)
      then gset d (i+1) j (k+1) else d
    let d := if j < (d.getD i []).length - 1 ∧ gget d i (j+1) = 0 ∧
        !(cget c i (j+1)) then gset d i (j+1) (k+1) else d
    d

/-- `makeStep`: scan every cell in row-major order (grid dimensions
never change during the scan). -/
def makeStep (c : CollisionGrid) (d : DistGrid) (k : Nat) : DistGrid :=
  (List.range d.length).foldl (fun d2 i =>
    (List.range (d2.getD i []).length).foldl
      (fun d3 j => stepCell c k d3 i j) d2) d

/-- The wavefront loop: while the end tile is unreached and the
iteration budget (`loopMax = 150`) remains, advance the frontier. -/
def bfsLoop (c : CollisionGrid) (endY endX : Nat) :
    Nat → Nat → DistGrid → DistGrid
  | 0, _, d => d
  | fuel + 1, k, d =>
      if gget d endY endX = 0 then
        bfsLoop c endY endX fuel (k + 1) (makeStep c d (k + 1))
      else d

/-- The reconstruction loop: while `k > 1`, step to the first of
north/west/south/east holding `k-1` and append it.  When no branch
fires the Go loop never terminates; the fuel (initialized to `k`, which
bounds the iterations the Go loop can complete) cuts only such runs. -/
def walkBack (d : DistGrid) : Nat → Nat → Nat → Nat → List TilePos →
    List TilePos
  | 0, _, _, _, path => path
  | fuel + 1, i, j, k, path =>
      if k ≤ 1 then path
      else if i > 0 ∧ gget d (i-1) j = k - 1 then
        walkBack d fuel (i-1) j (k-1) (path ++ [⟨j, i-1⟩])
      else if j > 0 ∧ gget d i (j-1) = k - 1 then
        walkBack d fuel i (j-1) (k-1) (path ++ [⟨j-1, i⟩])
      else if i < d.length - 1 ∧ gget d (i+1) j = k - 1 then
        walkBack d fuel (i+1) j (k-1) (path ++ [⟨j, i+1⟩])
      else if j < (d.getD i []).length - 1 ∧ gget d i (j+1) = k - 1 then
        walkBack d fuel i (j+1) (k-1) (path ++ [⟨j+1, i⟩])
      else path

/-- `Maze.Pathfind`: the distance grid is shaped like the maze (equal to
the collision grid's shape), seeded with 1 at the start tile; after the
wavefront loop the path is rebuilt from the end tile and reversed.  The
function's only result is the path slice — it has no error return. -/
def pathfind (c : CollisionGrid) (start endP : TilePos) : List TilePos :=
  let d0 : DistGrid := c.map (fun row => row.map (fun _ => 0))
  let d1 := gset d0 start.y start.x 1
  let d := bfsLoop c endP.y endP.x 150 0 d1
  let k := gget d endP.y endP.x
  (walkBack d k endP.y endP.x k [endP]).reverse

/-- **C2.**  On a 1×2 grid whose end tile is collided (unreachable), the
150-iteration cap expires with the end tile still unreached and
`Pathfind` silently returns the single-element path `[end]` — no error
is surfaced (the function has no error channel), and the shape is
indistinguishable from the legal same-tile answer. -/
theorem pathfind_unreachable_silently_returns_end :
    pathfind [[false, true]] ⟨0, 0⟩ ⟨1, 0⟩ = [⟨1, 0⟩] := by decide

end SimCore
